import Mathlib

/-!
Verification of the treasury ledger core: the pricing engine
(`backend/internal/utils/yield.go`), the transaction service
(`BuyTreasury`/`SellTreasury` in the services package) together with the
relational schema it writes through (`DECIMAL(12,2)` money columns and the
check constraints of `users`, `transactions` and `holdings`), and the
historical-yield downsampling (`sampleDataPoints` in the treasury service).

Monetary values are modelled as exact rationals.  Go's `math.Round` (used by
every pricing function), `fmt.Sprintf("%.2f", ...)` (used before every store
write of a computed amount) and PostgreSQL's coercion to a `DECIMAL(_, 2)`
column all round to the nearest cent with ties going away from zero; the
single function `round2` models all three.  Each database write applies the
column rounding and enforces the schema's check constraints; the
`pgx.BeginFunc` atomic unit is modelled by building the post-state
functionally, so an error anywhere in the unit discards all of the unit's
writes.  `time.Now()` is passed explicitly as a day number.
-/

namespace Treasury

/-- Rounding to the nearest integer with ties away from zero: the exact
semantics of Go `math.Round` and of PostgreSQL `NUMERIC` scale coercion
(commercial round-half-up, which rounds ties up in magnitude). -/
def roundAway (x : ℚ) : ℤ :=
  if x < 0 then -⌊-x + 1 / 2⌋ else ⌊x + 1 / 2⌋

/-- Rounds to two decimal places (whole cents), ties away from zero:
`math.Round(x*100)/100` in `yield.go`, `fmt.Sprintf("%.2f", x)`, and the
value stored by a `DECIMAL(12, 2)` column. -/
def round2 (x : ℚ) : ℚ :=
  ((roundAway (x * 100) : ℤ) : ℚ) / 100

/-- A rational that is a whole number of cents, as every amount read back
from a `DECIMAL(_, 2)` column is. -/
def IsCents (x : ℚ) : Prop :=
  ∃ n : ℤ, x = (n : ℚ) / 100

/-- Security classes of `utils/yield.go` (`SecurityTypeBill` etc.). -/
inductive SecurityType where
  | bill
  | note
  | bond
deriving DecidableEq, Repr

/-- String stored in the `security_type` column for each class. -/
def SecurityType.str : SecurityType → String
  | .bill => "bill"
  | .note => "note"
  | .bond => "bond"

/-- Error cases of the pricing engine, one per distinct validation message in
`utils/yield.go`. -/
inductive PriceErr where
  | invalidTerm
  | wrongSecurityType
  | invalidFaceValue
  | invalidYield
  | invalidPrincipal
  | invalidDaysHeld
deriving DecidableEq, Repr

deriving instance DecidableEq for Except

/-- `utils.TermDurationDays`: duration in days of each of the 8 terms. -/
def termDurationDays : String → Except PriceErr Int
  | "1M" => .ok 30
  | "3M" => .ok 90
  | "6M" => .ok 180
  | "1Y" => .ok 365
  | "2Y" => .ok 730
  | "5Y" => .ok 1825
  | "10Y" => .ok 3650
  | "30Y" => .ok 10950
  | _ => .error .invalidTerm

/-- `utils.GetSecurityType`: bill for 1M/3M/6M/1Y, note for 2Y/5Y/10Y, bond
for 30Y, invalid-term error otherwise. -/
def getSecurityType : String → Except PriceErr SecurityType
  | "1M" | "3M" | "6M" | "1Y" => .ok .bill
  | "2Y" | "5Y" | "10Y" => .ok .note
  | "30Y" => .ok .bond
  | _ => .error .invalidTerm

/-- `utils.CalculateBillPrice`: discounted price of a Treasury Bill,
`faceValue * (1 - (yieldRate/100 * days)/360)` rounded to cents, with the
function's validation checks in source order. -/
def calculateBillPrice (faceValue yieldRate : ℚ) (term : String) : Except PriceErr ℚ :=
  match getSecurityType term with
  | .error e => .error e
  | .ok securityType =>
    if securityType ≠ SecurityType.bill then .error .wrongSecurityType
    else if faceValue ≤ 0 then .error .invalidFaceValue
    else if yieldRate < 0 ∨ yieldRate > 100 then .error .invalidYield
    else
      match termDurationDays term with
      | .error e => .error e
      | .ok days =>
        .ok (round2 (faceValue * (1 - (yieldRate / 100 * (days : ℚ)) / 360)))

/-- `utils.CalculateBillDiscount`. -/
def calculateBillDiscount (faceValue purchasePrice : ℚ) : ℚ :=
  round2 (faceValue - purchasePrice)

/-- `utils.CalculateNoteBondPrice`: par pricing for Notes and Bonds, with the
function's validation checks in source order (face value, then yield range,
then term class). -/
def calculateNoteBondPrice (faceValue yieldRate : ℚ) (term : String) : Except PriceErr ℚ :=
  if faceValue ≤ 0 then .error .invalidFaceValue
  else if yieldRate < 0 ∨ yieldRate > 100 then .error .invalidYield
  else
    match getSecurityType term with
    | .error e => .error e
    | .ok securityType =>
      if securityType = SecurityType.note ∨ securityType = SecurityType.bond then
        .ok (round2 faceValue)
      else .error .wrongSecurityType

/-- `utils.CalculateNoteBondMaturityValue`: principal plus simple interest
over a 365-day year, rounded to cents. -/
def calculateNoteBondMaturityValue (principal yieldRate : ℚ) (daysHeld : Int) :
    Except PriceErr ℚ :=
  if principal ≤ 0 then .error .invalidPrincipal
  else if yieldRate < 0 ∨ yieldRate > 100 then .error .invalidYield
  else if daysHeld < 0 then .error .invalidDaysHeld
  else .ok (round2 (principal + principal * (yieldRate / 100) * ((daysHeld : ℚ) / 365)))

/-- Transaction types of the `transaction_type` enum. -/
inductive TxnType where
  | fund
  | withdraw
  | buy
  | sell
deriving DecidableEq, Repr

/-- A row of the `holdings` table.  `amount` is the legacy column kept for
backward compatibility (set to the face value at creation); `faceValue`,
`purchasePrice` and `securityType` are nullable for pre-migration rows. -/
structure Holding where
  id : Nat
  userId : Nat
  term : String
  amount : ℚ
  yieldAtPurchase : ℚ
  purchaseDate : Int
  remainingAmount : ℚ
  faceValue : Option ℚ
  purchasePrice : Option ℚ
  securityType : Option String
deriving DecidableEq, Repr

/-- A row of the `transactions` table. -/
structure Txn where
  userId : Nat
  type : TxnType
  term : Option String
  amount : ℚ
  yieldAtTransaction : Option ℚ
  balanceAfter : ℚ
  holdingId : Option Nat
deriving DecidableEq, Repr

/-- The relational store: `users` as (id, balance) pairs, the `holdings` and
`transactions` tables, and the holdings id sequence. -/
structure LedgerState where
  users : List (Nat × ℚ)
  holdings : List Holding
  txns : List Txn
  nextHoldingId : Nat
deriving DecidableEq, Repr

/-- Low-level store errors: a check-constraint violation (SQLSTATE 23514) or
a no-rows result. -/
inductive DbErr where
  | checkViolation
  | noRows
deriving DecidableEq, Repr

/-- `GetUser` / `GetUserForUpdate`: the balance of the user row. -/
def getUser (st : LedgerState) (userId : Nat) : Option ℚ :=
  (st.users.find? (fun u => u.1 == userId)).map (fun u => u.2)

/-- `UpdateUserBalance` (`SET balance = balance + $1 ... RETURNING *`)
together with the `users_balance_non_negative` check constraint and the
`DECIMAL(12,2)` scale of the `balance` column. -/
def updateUserBalance (st : LedgerState) (userId : Nat) (delta : ℚ) :
    Except DbErr (LedgerState × ℚ) :=
  match getUser st userId with
  | none => .error .noRows
  | some bal =>
    if round2 (bal + delta) < 0 then .error .checkViolation
    else
      .ok
        ({ st with
            users := st.users.map fun u =>
              if u.1 == userId then (u.1, round2 (u.2 + delta)) else u },
          round2 (bal + delta))

/-- `CreateHolding`: rounds every `DECIMAL` column to its scale and enforces
`holdings_amount_positive`, `holdings_remaining_non_negative` and
`holdings_remaining_lte_amount`. -/
def insertHolding (st : LedgerState) (userId : Nat) (term : String)
    (amount yieldAtPurchase : ℚ) (purchaseDate : Int) (remainingAmount : ℚ)
    (faceValue purchasePrice : ℚ) (securityType : String) :
    Except DbErr (LedgerState × Holding) :=
  let h : Holding :=
    { id := st.nextHoldingId
      userId := userId
      term := term
      amount := round2 amount
      yieldAtPurchase := round2 yieldAtPurchase
      purchaseDate := purchaseDate
      remainingAmount := round2 remainingAmount
      faceValue := some (round2 faceValue)
      purchasePrice := some (round2 purchasePrice)
      securityType := some securityType }
  if h.amount ≤ 0 ∨ h.remainingAmount < 0 ∨ h.amount < h.remainingAmount then
    .error .checkViolation
  else
    .ok ({ st with holdings := st.holdings ++ [h], nextHoldingId := st.nextHoldingId + 1 }, h)

/-- `CreateTransaction`: rounds the `DECIMAL` columns to their scale and
enforces `transactions_amount_positive`. -/
def insertTxn (st : LedgerState) (t : Txn) : Except DbErr LedgerState :=
  let stored : Txn :=
    { t with
        amount := round2 t.amount
        yieldAtTransaction := t.yieldAtTransaction.map round2
        balanceAfter := round2 t.balanceAfter }
  if stored.amount ≤ 0 then .error .checkViolation
  else .ok { st with txns := st.txns ++ [stored] }

/-- `GetHoldingByID`. -/
def getHoldingByID (st : LedgerState) (holdingId : Nat) : Option Holding :=
  st.holdings.find? (fun h => h.id == holdingId)

/-- `UpdateHoldingRemainingAmount` with the holdings check constraints
(`remaining_amount >= 0` and `remaining_amount <= amount`). -/
def updateHoldingRemainingAmount (st : LedgerState) (holdingId : Nat) (newRemaining : ℚ) :
    Except DbErr LedgerState :=
  match getHoldingByID st holdingId with
  | none => .error .noRows
  | some h =>
    if round2 newRemaining < 0 ∨ h.amount < round2 newRemaining then .error .checkViolation
    else
      .ok
        { st with
            holdings := st.holdings.map fun g =>
              if g.id == holdingId then { g with remainingAmount := round2 newRemaining } else g }

/-- Service-level errors, one per distinct error path of the transaction
service.  `insufficientRemaining` is the "insufficient remaining amount"
invalid-amount error of `SellTreasury`. -/
inductive LedgerErr where
  | invalidAmount
  | invalidTerm
  | invalidYield
  | pricing (e : PriceErr)
  | userNotFound
  | insufficientBalance
  | notFound
  | forbidden
  | insufficientRemaining
  | dataIntegrity
  | invalidState
  | invalidHoldingYield
  | storeError
deriving DecidableEq, Repr

/-- Price dispatch of `BuyTreasury`: discount pricing for bills, par pricing
for notes and bonds. -/
def computePurchasePrice (securityType : SecurityType) (faceValue currentYield : ℚ)
    (term : String) : Except PriceErr ℚ :=
  if securityType = SecurityType.bill then calculateBillPrice faceValue currentYield term
  else calculateNoteBondPrice faceValue currentYield term

/-- The purchase price `BuyTreasury` would compute for a term: class lookup
followed by the class-appropriate pricing function. -/
def purchasePriceOf (term : String) (faceValue currentYield : ℚ) : Except PriceErr ℚ :=
  match getSecurityType term with
  | .error e => .error e
  | .ok securityType => computePurchasePrice securityType faceValue currentYield term

/-- `TransactionService.BuyTreasury`.  `now` stands for `time.Now()` as a day
number.  Source order: class lookup, face-value and yield validation, price
computation, balance pre-check, then the atomic unit (re-check under lock,
holding insert, balance deduction by the purchase price with the SQLSTATE
23514 translation to insufficient-balance, transaction insert). -/
def buyTreasury (st : LedgerState) (userId : Nat) (term : String)
    (faceValue currentYield : ℚ) (now : Int) : Except LedgerErr LedgerState :=
  match getSecurityType term with
  | .error _ => .error .invalidTerm
  | .ok securityType =>
    if faceValue ≤ 0 then .error .invalidAmount
    else if currentYield < 0 then .error .invalidYield
    else
      match computePurchasePrice securityType faceValue currentYield term with
      | .error e => .error (.pricing e)
      | .ok purchasePrice =>
        match getUser st userId with
        | none => .error .userNotFound
        | some bal =>
          if bal < purchasePrice then .error .insufficientBalance
          else if bal < purchasePrice then .error .insufficientBalance
          else
            match insertHolding st userId term faceValue currentYield now faceValue
                faceValue purchasePrice securityType.str with
            | .error _ => .error .storeError
            | .ok (st1, holding) =>
              match updateUserBalance st1 userId (-purchasePrice) with
              | .error .checkViolation => .error .insufficientBalance
              | .error .noRows => .error .storeError
              | .ok (st2, newBal) =>
                match insertTxn st2
                    { userId := userId
                      type := .buy
                      term := some term
                      amount := purchasePrice
                      yieldAtTransaction := some currentYield
                      balanceAfter := newBal
                      holdingId := some holding.id } with
                | .error _ => .error .storeError
                | .ok st3 => .ok st3

/-- Security-type resolution of `SellTreasury`: the stored column when valid
and non-empty, otherwise inferred from the term, failing with the
data-integrity error when the term itself is invalid. -/
def resolveSecurityType (h : Holding) : Except LedgerErr String :=
  match h.securityType with
  | some s =>
    if s ≠ "" then .ok s
    else
      match getSecurityType h.term with
      | .ok t => .ok t.str
      | .error _ => .error .dataIntegrity
  | none =>
    match getSecurityType h.term with
    | .ok t => .ok t.str
    | .error _ => .error .dataIntegrity

/-- Proceeds computation of `SellTreasury`: face value for bills (the
discount was realized at purchase), simple-interest maturity value for
notes and bonds with the negative-days and negative-yield guards. -/
def sellProceeds (h : Holding) (amount : ℚ) (now : Int) (securityType : String) :
    Except LedgerErr ℚ :=
  if securityType = "bill" then .ok amount
  else
    if now - h.purchaseDate < 0 then .error .invalidState
    else if h.yieldAtPurchase < 0 then .error .invalidHoldingYield
    else
      match calculateNoteBondMaturityValue amount h.yieldAtPurchase (now - h.purchaseDate) with
      | .ok mv => .ok mv
      | .error e => .error (.pricing e)

/-- `TransactionService.SellTreasury`.  Source order: amount validation,
holding lookup, ownership check, remaining-amount check, security-type
resolution, proceeds computation, then the atomic unit (remaining-amount
update written through `%.2f`, balance credit, transaction insert). -/
def sellTreasury (st : LedgerState) (userId holdingId : Nat) (amount : ℚ) (now : Int) :
    Except LedgerErr LedgerState :=
  if amount ≤ 0 then .error .invalidAmount
  else
    match getHoldingByID st holdingId with
    | none => .error .notFound
    | some holding =>
      if holding.userId ≠ userId then .error .forbidden
      else if holding.remainingAmount < amount then .error .insufficientRemaining
      else
        match resolveSecurityType holding with
        | .error e => .error e
        | .ok securityType =>
          match sellProceeds holding amount now securityType with
          | .error e => .error e
          | .ok totalProceeds =>
            match updateHoldingRemainingAmount st holdingId
                (holding.remainingAmount - amount) with
            | .error _ => .error .storeError
            | .ok st1 =>
              match updateUserBalance st1 userId (round2 totalProceeds) with
              | .error _ => .error .storeError
              | .ok (st2, newBal) =>
                match insertTxn st2
                    { userId := userId
                      type := .sell
                      term := some holding.term
                      amount := amount
                      yieldAtTransaction := some holding.yieldAtPurchase
                      balanceAfter := newBal
                      holdingId := some holdingId } with
                | .error _ => .error .storeError
                | .ok st3 => .ok st3

/-- Runs a buy against the store: on error the `pgx.BeginFunc` unit rolls
back and the state is unchanged. -/
def buyStep (st : LedgerState) (userId : Nat) (term : String)
    (faceValue currentYield : ℚ) (now : Int) : LedgerState :=
  match buyTreasury st userId term faceValue currentYield now with
  | .ok st1 => st1
  | .error _ => st

/-- Arguments of one sell call. -/
structure SellOp where
  userId : Nat
  holdingId : Nat
  amount : ℚ
  now : Int

/-- Runs one sell against the store: on error the unit rolls back and the
state is unchanged. -/
def sellStep (st : LedgerState) (op : SellOp) : LedgerState :=
  match sellTreasury st op.userId op.holdingId op.amount op.now with
  | .ok st1 => st1
  | .error _ => st

/-- Runs a sequence of sequential sell calls. -/
def runSells (st : LedgerState) (ops : List SellOp) : LedgerState :=
  ops.foldl sellStep st

/-- A civil date, the result of Go `time.Parse("2006-01-02", s)`. -/
structure Date where
  year : Int
  month : Int
  day : Int
deriving DecidableEq, Repr

/-- Gregorian leap-year rule, as Go `time` applies it. -/
def isLeapYear (y : Int) : Bool :=
  y % 4 == 0 && (y % 100 != 0 || y % 400 == 0)

/-- Number of days of a month, used by Go `time.Parse` to validate the day. -/
def daysInMonth (y m : Int) : Int :=
  if m = 1 ∨ m = 3 ∨ m = 5 ∨ m = 7 ∨ m = 8 ∨ m = 10 ∨ m = 12 then 31
  else if m = 4 ∨ m = 6 ∨ m = 9 ∨ m = 11 then 30
  else if isLeapYear y then 29 else 28

/-- Value of an ASCII digit. -/
def digitVal (c : Char) : Option Int :=
  if '0' ≤ c ∧ c ≤ '9' then some ((c.toNat : Int) - 48) else none

/-- Go `time.Parse("2006-01-02", s)`: exactly a 4-digit year, 2-digit month
and 2-digit day separated by dashes, with the month and the day validated
against the calendar; anything else is a parse error (`none`). -/
def parseDate (s : String) : Option Date :=
  match s.toList with
  | [y1, y2, y3, y4, c1, m1, m2, c2, d1, d2] =>
    if c1 = Char.ofNat 45 ∧ c2 = Char.ofNat 45 then
      match digitVal y1, digitVal y2, digitVal y3, digitVal y4,
          digitVal m1, digitVal m2, digitVal d1, digitVal d2 with
      | some a, some b, some c, some d, some e, some f, some g, some h =>
        let y := 1000 * a + 100 * b + 10 * c + d
        let m := 10 * e + f
        let dy := 10 * g + h
        if 1 ≤ m ∧ m ≤ 12 ∧ 1 ≤ dy ∧ dy ≤ daysInMonth y m then some ⟨y, m, dy⟩
        else none
      | _, _, _, _, _, _, _, _ => none
    else none
  | _ => none

/-- Days since 1970-01-01 of a civil date (the standard civil-calendar day
count Go `time` computes through its absolute-time representation). -/
def daysFromCivil (d : Date) : Int :=
  let y := if d.month ≤ 2 then d.year - 1 else d.year
  let era := (if 0 ≤ y then y else y - 399) / 400
  let yoe := y - era * 400
  let mp := d.month + (if 2 < d.month then -3 else 9)
  let doy := (153 * mp + 2) / 5 + d.day - 1
  let doe := yoe * 365 + yoe / 4 - yoe / 100 + doy
  era * 146097 + doe - 719468

/-- Civil date of a day number, inverse of `daysFromCivil`. -/
def civilFromDays (z0 : Int) : Date :=
  let z := z0 + 719468
  let era := (if 0 ≤ z then z else z - 146096) / 146097
  let doe := z - era * 146097
  let yoe := (doe - doe / 1460 + doe / 36524 - doe / 146096) / 365
  let y := yoe + era * 400
  let doy := doe - (365 * yoe + yoe / 4 - yoe / 100)
  let mp := (5 * doy + 2) / 153
  let dy := doy - (153 * mp + 2) / 5 + 1
  let m := mp + (if mp < 10 then 3 else -9)
  ⟨y + (if m ≤ 2 then 1 else 0), m, dy⟩

/-- Go `Time.ISOWeek()`: the ISO 8601 (year, week) pair — the year and
one-based week index of the Thursday of the date's Monday-based week. -/
def isoWeek (d : Date) : Int × Int :=
  let dn := daysFromCivil d
  let wd := (dn + 3).emod 7 + 1
  let thu := dn + (4 - wd)
  let td := civilFromDays thu
  let yday := thu - daysFromCivil ⟨td.year, 1, 1⟩
  (td.year, yday / 7 + 1)

/-- One element of the `dataPoints` slice built by `convertToHistoricalData`:
the truncated date string plus the three retained rate fields. -/
structure DataPoint where
  date : String
  rate10Y : ℚ
  rate5Y : ℚ
  rate2Y : ℚ
deriving DecidableEq, Repr

/-- Byte-lexicographic comparison of character lists, the order Go's `<` on
(ASCII) strings computes. -/
def chLt : List Char → List Char → Bool
  | _, [] => false
  | [], _ :: _ => true
  | a :: as, b :: bs => a < b || (a = b && chLt as bs)

/-- Go string `<` (byte-lexicographic; these date strings are ASCII). -/
def goStrLt (a b : String) : Bool :=
  chLt a.toList b.toList

/-- Sampling interval of `sampleDataPoints`: 30 (monthly) for the 30Y
period, 7 (weekly) for 10Y and 5Y, none otherwise. -/
def samplingInterval : String → Option Nat
  | "30Y" => some 30
  | "10Y" | "5Y" => some 7
  | _ => none

/-- Bucket key of a data point: the calendar month (`Format("2006-01")`) for
the monthly interval, the ISO week (`ISOWeek()`, formatted `%d-W%02d`) for
the weekly one; `none` when the date fails to parse (such points are
skipped).  Both Go key formats are injective on parsed dates, so the pair
stands for the key string. -/
def keyOf (interval : Nat) (p : DataPoint) : Option (Int × Int) :=
  match parseDate p.date with
  | none => none
  | some d => some (if interval == 30 then (d.year, d.month) else isoWeek d)

/-- Lookup in the interval map (`intervalMap[intervalKey]`). -/
def lookupBucket (m : List ((Int × Int) × DataPoint)) (k : Int × Int) : Option DataPoint :=
  (m.find? (fun e => e.1 = k)).map (fun e => e.2)

/-- One iteration of the `sampleDataPoints` loop: skip unparseable dates,
keep the existing bucket entry unless the new point's date is strictly
later. -/
def bucketInsert (interval : Nat) (m : List ((Int × Int) × DataPoint)) (p : DataPoint) :
    List ((Int × Int) × DataPoint) :=
  match keyOf interval p with
  | none => m
  | some k =>
    match lookupBucket m k with
    | some existing =>
      if goStrLt existing.date p.date then
        m.map (fun e => if e.1 = k then (k, p) else e)
      else m
    | none => m ++ [(k, p)]

/-- Insertion step of the final `sort.Slice(..., dateI < dateJ)`. -/
def insertByDate (p : DataPoint) : List DataPoint → List DataPoint
  | [] => [p]
  | q :: rest => if goStrLt p.date q.date then p :: q :: rest else q :: insertByDate p rest

/-- Sorting the sampled points by date ascending.  The Go code collects the
map's values (one per key, pairwise-distinct dates) and sorts them by `<` on
the date, which determines the list uniquely. -/
def sortByDate (l : List DataPoint) : List DataPoint :=
  l.foldr insertByDate []

/-- `sampleDataPoints`: identity for the 1W/1M/3M/6M/1Y periods and for the
empty list, otherwise one point per calendar month (30Y) or ISO week
(10Y/5Y) — the latest-dated point of each bucket — sorted by date. -/
def sampleDataPoints (dataPoints : List DataPoint) (period : String) : List DataPoint :=
  if period = "1W" ∨ period = "1M" ∨ period = "3M" ∨ period = "6M" ∨ period = "1Y" then
    dataPoints
  else if dataPoints.isEmpty then dataPoints
  else
    match samplingInterval period with
    | none => dataPoints
    | some interval =>
      sortByDate ((dataPoints.foldl (bucketInsert interval) []).map (fun e => e.2))

/-- Loop invariant of the `sampleDataPoints` bucket map over a processed
prefix of the point list: every entry is keyed by its point's bucket, holds
a point of the prefix no prefix point of the same bucket strictly exceeds
(by date), every bucketed prefix point has an entry, and keys are unique. -/
def BucketInv (i : Nat) (pref : List DataPoint) (m : List ((Int × Int) × DataPoint)) : Prop :=
  (∀ e ∈ m, keyOf i e.2 = some e.1 ∧ e.2 ∈ pref ∧
    ∀ p ∈ pref, keyOf i p = some e.1 → goStrLt e.2.date p.date = false) ∧
  (∀ p ∈ pref, ∀ k, keyOf i p = some k → ∃ e ∈ m, e.1 = k) ∧
  (∀ e ∈ m, ∀ e2 ∈ m, e.1 = e2.1 → e = e2)

/-! ### Rounding lemmas -/

theorem roundAway_intCast (n : ℤ) : roundAway (n : ℚ) = n := by
  unfold roundAway
  by_cases h : (n : ℚ) < 0
  · rw [if_pos h]
    rw [show -(n : ℚ) + 1 / 2 = ((-n : ℤ) : ℚ) + 1 / 2 by push_cast; ring]
    rw [Int.floor_int_add]
    norm_num
  · rw [if_neg h]
    rw [Int.floor_int_add]
    norm_num

theorem roundAway_nonneg {x : ℚ} (h : 0 ≤ x) : 0 ≤ roundAway x := by
  unfold roundAway
  rw [if_neg (not_lt.mpr h)]
  exact Int.floor_nonneg.mpr (by linarith)

theorem roundAway_mono {x y : ℚ} (h : x ≤ y) : roundAway x ≤ roundAway y := by
  unfold roundAway
  by_cases hx : x < 0 <;> by_cases hy : y < 0
  · rw [if_pos hx, if_pos hy]
    exact neg_le_neg (Int.floor_le_floor (by linarith))
  · rw [if_pos hx, if_neg hy]
    have h1 : 0 ≤ ⌊-x + 1 / 2⌋ := Int.floor_nonneg.mpr (by linarith)
    have h2 : 0 ≤ ⌊y + 1 / 2⌋ := Int.floor_nonneg.mpr (by linarith)
    omega
  · exact absurd (lt_of_le_of_lt h hy) hx
  · rw [if_neg hx, if_neg hy]
    exact Int.floor_le_floor (by linarith)

theorem round2_nonneg {x : ℚ} (h : 0 ≤ x) : 0 ≤ round2 x := by
  unfold round2
  have := roundAway_nonneg (x := x * 100) (by positivity)
  positivity

theorem round2_mono {x y : ℚ} (h : x ≤ y) : round2 x ≤ round2 y := by
  unfold round2
  have : roundAway (x * 100) ≤ roundAway (y * 100) :=
    roundAway_mono (by linarith)
  have hc : ((roundAway (x * 100) : ℤ) : ℚ) ≤ ((roundAway (y * 100) : ℤ) : ℚ) :=
    Int.cast_le.mpr this
  linarith

theorem IsCents.round2_eq {x : ℚ} (h : IsCents x) : round2 x = x := by
  obtain ⟨n, rfl⟩ := h
  unfold round2
  rw [show (n : ℚ) / 100 * 100 = (n : ℚ) by field_simp, roundAway_intCast]

theorem round2_isCents (x : ℚ) : IsCents (round2 x) :=
  ⟨roundAway (x * 100), rfl⟩

theorem round2_idem (x : ℚ) : round2 (round2 x) = round2 x :=
  (round2_isCents x).round2_eq

theorem round2_le_of_isCents {x c : ℚ} (hc : IsCents c) (h : x ≤ c) : round2 x ≤ c := by
  have := round2_mono h
  rwa [hc.round2_eq] at this

/-! ### Pricing engine lemmas -/

theorem calculateBillPrice_of_checks (term : String) (days : Int) (fv y : ℚ)
    (hsec : getSecurityType term = Except.ok SecurityType.bill)
    (hdays : termDurationDays term = Except.ok days)
    (h0 : 0 < fv) (h1 : 0 ≤ y) (h2 : y ≤ 100) :
    calculateBillPrice fv y term = .ok (round2 (fv * (1 - (y / 100 * (days : ℚ)) / 360))) := by
  have h0n : ¬ fv ≤ 0 := not_le.mpr h0
  have hyn : ¬ (y < 0 ∨ y > 100) := by rintro (h | h) <;> linarith
  unfold calculateBillPrice
  rw [hsec, hdays]
  simp [h0n, hyn]

theorem calculateBillPrice_ok_facts {fv y : ℚ} {term : String} {p : ℚ}
    (h : calculateBillPrice fv y term = .ok p) :
    0 < fv ∧ 0 ≤ y ∧ y ≤ 100 ∧ getSecurityType term = .ok .bill ∧ IsCents p := by
  unfold calculateBillPrice at h
  split at h
  · exact absurd h (by simp)
  rename_i securityType hsec
  split at h
  · exact absurd h (by simp)
  rename_i hne
  split at h
  · exact absurd h (by simp)
  rename_i hfv
  split at h
  · exact absurd h (by simp)
  rename_i hy
  split at h
  · exact absurd h (by simp)
  rename_i days hdays
  refine ⟨not_le.mp hfv, ?_, ?_, ?_, ?_⟩
  · by_contra hc
    exact hy (Or.inl (not_le.mp hc))
  · by_contra hc
    exact hy (Or.inr (not_le.mp hc))
  · rw [hsec, not_ne_iff.mp hne]
  · cases h
    exact round2_isCents _

theorem calculateNoteBondPrice_of_checks (term : String) (t : SecurityType) (fv y : ℚ)
    (hsec : getSecurityType term = Except.ok t)
    (ht : t = SecurityType.note ∨ t = SecurityType.bond)
    (h0 : 0 < fv) (h1 : 0 ≤ y) (h2 : y ≤ 100) :
    calculateNoteBondPrice fv y term = .ok (round2 fv) := by
  have h0n : ¬ fv ≤ 0 := not_le.mpr h0
  have hyn : ¬ (y < 0 ∨ y > 100) := by rintro (h | h) <;> linarith
  unfold calculateNoteBondPrice
  rw [hsec]
  simp [h0n, hyn, ht]

theorem calculateNoteBondPrice_ok_facts {fv y : ℚ} {term : String} {p : ℚ}
    (h : calculateNoteBondPrice fv y term = .ok p) :
    0 < fv ∧ 0 ≤ y ∧ y ≤ 100 ∧ IsCents p := by
  unfold calculateNoteBondPrice at h
  split at h
  · exact absurd h (by simp)
  rename_i hfv
  split at h
  · exact absurd h (by simp)
  rename_i hy
  refine ⟨not_le.mp hfv, ?_, ?_, ?_⟩
  · by_contra hc
    exact hy (Or.inl (not_le.mp hc))
  · by_contra hc
    exact hy (Or.inr (not_le.mp hc))
  · split at h
    · exact absurd h (by simp)
    split at h
    · cases h
      exact round2_isCents _
    · exact absurd h (by simp)

theorem purchasePriceOf_ok_facts {term : String} {fv y p : ℚ}
    (h : purchasePriceOf term fv y = .ok p) :
    ∃ t, getSecurityType term = .ok t ∧ computePurchasePrice t fv y term = .ok p ∧
      0 < fv ∧ 0 ≤ y ∧ y ≤ 100 ∧ IsCents p := by
  unfold purchasePriceOf at h
  split at h
  · exact absurd h (by simp)
  · rename_i t hsec
    refine ⟨t, hsec, h, ?_⟩
    unfold computePurchasePrice at h
    split at h
    · obtain ⟨h1, h2, h3, _, h5⟩ := calculateBillPrice_ok_facts h
      exact ⟨h1, h2, h3, h5⟩
    · exact calculateNoteBondPrice_ok_facts h

theorem billPrice_mono_aux (term : String) (days : Int) (fv y1 y2 : ℚ)
    (hsec : getSecurityType term = Except.ok SecurityType.bill)
    (hdays : termDurationDays term = Except.ok days) (hd : 0 ≤ (days : ℚ))
    (h0 : 0 < fv) (hy1 : 0 ≤ y1) (h12 : y1 ≤ y2) (hy2 : y2 ≤ 100) :
    calculateBillPrice fv y1 term = .ok (round2 (fv * (1 - (y1 / 100 * (days : ℚ)) / 360))) ∧
    calculateBillPrice fv y2 term = .ok (round2 (fv * (1 - (y2 / 100 * (days : ℚ)) / 360))) ∧
    round2 (fv * (1 - (y2 / 100 * (days : ℚ)) / 360)) ≤
      round2 (fv * (1 - (y1 / 100 * (days : ℚ)) / 360)) ∧
    fv * (1 - (y1 / 100 * (days : ℚ)) / 360) ≤ fv := by
  have e1 := calculateBillPrice_of_checks term days fv y1 hsec hdays h0 hy1 (h12.trans hy2)
  have e2 := calculateBillPrice_of_checks term days fv y2 hsec hdays h0 (hy1.trans h12) hy2
  have hab : y1 / 100 * (days : ℚ) / 360 ≤ y2 / 100 * (days : ℚ) / 360 := by
    have := mul_le_mul_of_nonneg_right h12 hd
    linarith
  have hδ : 0 ≤ y1 / 100 * (days : ℚ) / 360 := by positivity
  refine ⟨e1, e2, round2_mono ?_, ?_⟩
  · exact mul_le_mul_of_nonneg_left (by linarith) h0.le
  · have : fv * (1 - y1 / 100 * (days : ℚ) / 360) ≤ fv * 1 :=
      mul_le_mul_of_nonneg_left (by linarith) h0.le
    linarith

/-! ### Store operation lemmas -/

theorem getUser_map_update (l : List (Nat × ℚ)) (uid : Nat) (δ : ℚ) (bal : ℚ)
    (h : (l.find? (fun u => u.1 == uid)).map (fun u => u.2) = some bal) :
    ((l.map fun u => if u.1 == uid then (u.1, round2 (u.2 + δ)) else u).find?
        (fun u => u.1 == uid)).map (fun u => u.2) = some (round2 (bal + δ)) := by
  induction l with
  | nil => simp at h
  | cons a l ih =>
    by_cases ha : (a.1 == uid) = true
    · rw [@List.find?_cons_of_pos _ (fun u => u.1 == uid) a l ha] at h
      simp only [Option.map_some', Option.some.injEq] at h
      rw [List.map_cons, if_pos ha,
        @List.find?_cons_of_pos _ (fun u => u.1 == uid) (a.1, round2 (a.2 + δ)) _ (by simpa using ha)]
      simp only [Option.map_some', Option.some.injEq]
      rw [h]
    · rw [@List.find?_cons_of_neg _ (fun u => u.1 == uid) a l ha] at h
      rw [List.map_cons, if_neg ha,
        @List.find?_cons_of_neg _ (fun u => u.1 == uid) a _ ha]
      exact ih h

theorem updateUserBalance_ok_inv {st : LedgerState} {uid : Nat} {δ : ℚ}
    {st2 : LedgerState} {nb : ℚ} (h : updateUserBalance st uid δ = .ok (st2, nb)) :
    ∃ bal, getUser st uid = some bal ∧ 0 ≤ round2 (bal + δ) ∧ nb = round2 (bal + δ) ∧
      st2 = { st with
        users := st.users.map fun u => if u.1 == uid then (u.1, round2 (u.2 + δ)) else u } := by
  unfold updateUserBalance at h
  split at h
  · exact absurd h (by simp)
  rename_i bal hbal
  split at h
  · exact absurd h (by simp)
  rename_i hneg
  simp only [Except.ok.injEq, Prod.mk.injEq] at h
  exact ⟨bal, hbal, not_lt.mp hneg, h.2.symm, h.1.symm⟩

theorem insertHolding_ok_inv {st : LedgerState} {uid : Nat} {term : String}
    {am yld : ℚ} {pd : Int} {rem fv pp : ℚ} {sec : String}
    {st2 : LedgerState} {hd : Holding}
    (h : insertHolding st uid term am yld pd rem fv pp sec = .ok (st2, hd)) :
    hd = { id := st.nextHoldingId, userId := uid, term := term, amount := round2 am
           yieldAtPurchase := round2 yld, purchaseDate := pd
           remainingAmount := round2 rem, faceValue := some (round2 fv)
           purchasePrice := some (round2 pp), securityType := some sec } ∧
    0 < round2 am ∧ 0 ≤ round2 rem ∧ round2 rem ≤ round2 am ∧
    st2 = { st with holdings := st.holdings ++ [hd],
                    nextHoldingId := st.nextHoldingId + 1 } := by
  simp only [insertHolding] at h
  split at h
  · exact absurd h (by simp)
  rename_i hcon
  push_neg at hcon
  simp only [Except.ok.injEq, Prod.mk.injEq] at h
  obtain ⟨hst, hhd⟩ := h
  refine ⟨hhd.symm, ?_, ?_, ?_, ?_⟩
  · exact hcon.1
  · exact hcon.2.1
  · exact hcon.2.2
  · rw [← hst, ← hhd]

theorem insertTxn_ok_inv {st : LedgerState} {t : Txn} {st2 : LedgerState}
    (h : insertTxn st t = .ok st2) :
    0 < round2 t.amount ∧
    st2 = { st with txns := st.txns ++
      [{ t with amount := round2 t.amount
                yieldAtTransaction := t.yieldAtTransaction.map round2
                balanceAfter := round2 t.balanceAfter }] } := by
  simp only [insertTxn] at h
  split at h
  · exact absurd h (by simp)
  rename_i hcon
  simp only [Except.ok.injEq] at h
  exact ⟨not_le.mp hcon, h.symm⟩

theorem updateHoldingRemainingAmount_ok_inv {st : LedgerState} {hid : Nat}
    {newRem : ℚ} {st2 : LedgerState}
    (h : updateHoldingRemainingAmount st hid newRem = .ok st2) :
    ∃ h0, getHoldingByID st hid = some h0 ∧ 0 ≤ round2 newRem ∧ round2 newRem ≤ h0.amount ∧
      st2 = { st with holdings := st.holdings.map fun g =>
        if g.id == hid then { g with remainingAmount := round2 newRem } else g } := by
  unfold updateHoldingRemainingAmount at h
  split at h
  · exact absurd h (by simp)
  rename_i h0 hfound
  split at h
  · exact absurd h (by simp)
  rename_i hcon
  simp only [Except.ok.injEq] at h
  refine ⟨h0, hfound, ?_, ?_, h.symm⟩
  · exact not_lt.mp fun hx => hcon (Or.inl hx)
  · exact not_lt.mp fun hx => hcon (Or.inr hx)

theorem buyStep_eq_of_error {st : LedgerState} {uid : Nat} {term : String}
    {fv y : ℚ} {now : Int} {e : LedgerErr}
    (h : buyTreasury st uid term fv y now = .error e) :
    buyStep st uid term fv y now = st := by
  unfold buyStep
  rw [h]

theorem sellStep_eq_of_error {st : LedgerState} {op : SellOp} {e : LedgerErr}
    (h : sellTreasury st op.userId op.holdingId op.amount op.now = .error e) :
    sellStep st op = st := by
  unfold sellStep
  rw [h]

theorem buyTreasury_error_of_low_balance {st : LedgerState} {uid : Nat} {term : String}
    {fv y : ℚ} {now : Int} {price bal : ℚ}
    (hprice : purchasePriceOf term fv y = .ok price)
    (hbal : getUser st uid = some bal) (hlt : bal < price) :
    buyTreasury st uid term fv y now = .error .insufficientBalance := by
  obtain ⟨t, hsec, hcomp, hfv, hy0, _, _⟩ := purchasePriceOf_ok_facts hprice
  unfold buyTreasury
  rw [hsec]
  simp [not_le.mpr hfv, not_lt.mpr hy0, hcomp, hbal, hlt]

theorem buyTreasury_ok_inv {st : LedgerState} {uid : Nat} {term : String} {fv y : ℚ}
    {now : Int} {stF : LedgerState} (h : buyTreasury st uid term fv y now = .ok stF) :
    ∃ t price bal hd txn,
      getSecurityType term = .ok t ∧
      computePurchasePrice t fv y term = .ok price ∧
      getUser st uid = some bal ∧ price ≤ bal ∧
      hd = { id := st.nextHoldingId, userId := uid, term := term, amount := round2 fv
             yieldAtPurchase := round2 y, purchaseDate := now
             remainingAmount := round2 fv, faceValue := some (round2 fv)
             purchasePrice := some (round2 price), securityType := some t.str } ∧
      0 < round2 fv ∧
      stF.holdings = st.holdings ++ [hd] ∧
      stF.users = st.users.map (fun u => if u.1 == uid then (u.1, round2 (u.2 + -price)) else u) ∧
      stF.txns = st.txns ++ [txn] ∧
      txn.type = TxnType.buy ∧ txn.amount = round2 price ∧
      stF.nextHoldingId = st.nextHoldingId + 1 := by
  unfold buyTreasury at h
  cases hsec : getSecurityType term with
  | error e =>
    simp only [hsec] at h
    exact absurd h (by simp)
  | ok t =>
  simp only [hsec] at h
  by_cases hfv : fv ≤ 0
  · rw [if_pos hfv] at h
    exact absurd h (by simp)
  rw [if_neg hfv] at h
  by_cases hy : y < 0
  · rw [if_pos hy] at h
    exact absurd h (by simp)
  rw [if_neg hy] at h
  cases hcomp : computePurchasePrice t fv y term with
  | error e =>
    simp only [hcomp] at h
    exact absurd h (by simp)
  | ok price =>
  simp only [hcomp] at h
  cases hbal : getUser st uid with
  | none =>
    simp only [hbal] at h
    exact absurd h (by simp)
  | some bal =>
  simp only [hbal] at h
  by_cases hlt : bal < price
  · rw [if_pos hlt] at h
    exact absurd h (by simp)
  rw [if_neg hlt, if_neg hlt] at h
  cases hins : insertHolding st uid term fv y now fv fv price t.str with
  | error e =>
    simp only [hins] at h
    exact absurd h (by simp)
  | ok pr =>
  obtain ⟨st1, holding⟩ := pr
  simp only [hins] at h
  cases hupd : updateUserBalance st1 uid (-price) with
  | error e =>
    cases e <;> simp only [hupd] at h <;> exact absurd h (by simp)
  | ok pr2 =>
  obtain ⟨st2, newBal⟩ := pr2
  simp only [hupd] at h
  split at h
  · exact absurd h (by simp)
  rename_i st3 htxn
  have hF : st3 = stF := by injection h
  subst hF
  obtain ⟨hhd, hpos, _, _, hst1⟩ := insertHolding_ok_inv hins
  obtain ⟨bal1, hbal1, _, hnb, hst2⟩ := updateUserBalance_ok_inv hupd
  obtain ⟨_, hst3⟩ := insertTxn_ok_inv htxn
  have husers1 : st1.users = st.users := by rw [hst1]
  have he : getUser st1 uid = getUser st uid := by unfold getUser; rw [husers1]
  rw [he, hbal] at hbal1
  injection hbal1 with h2
  subst h2
  refine ⟨t, price, bal, holding,
    { userId := uid, type := TxnType.buy, term := some term, amount := round2 price,
      yieldAtTransaction := Option.map round2 (some y), balanceAfter := round2 newBal,
      holdingId := some holding.id },
    rfl, hcomp, rfl, not_lt.mp hlt, hhd, hpos, ?_, ?_, ?_, ?_, ?_, ?_⟩
  · rw [hst3, hst2, hst1]
  · rw [hst3, hst2, husers1]
  · rw [hst3, hst2, hst1]
  · rfl
  · rfl
  · rw [hst3, hst2, hst1]

/-! ### Claim theorems: the ledger service -/

/-- C1: with balance exactly $500,000, `buyTreasury(uid, "6M", 100000, 4.5)`
succeeds, deducts the computed purchase price $97,750 (not the face value),
returns balance $402,250.00, creates exactly one holding with
remainingAmount = 100000 and one buy transaction with amount = 97750; in
general the balance pre-check/re-check fail exactly when the balance is
below the computed purchase price, and a successful buy deducts the
purchase price, never the face value. -/
theorem buyTreasury_uses_purchase_price (st : LedgerState) (userId : Nat) (term : String)
    (fv y : ℚ) (now : Int) (price bal : ℚ)
    (hprice : purchasePriceOf term fv y = .ok price)
    (hbal : getUser st userId = some bal) :
    (bal < price → buyTreasury st userId term fv y now = .error .insufficientBalance) ∧
    (∀ st1, buyTreasury st userId term fv y now = .ok st1 →
      getUser st1 userId = some (round2 (bal - price)) ∧
      (∃ hd, st1.holdings = st.holdings ++ [hd] ∧ hd.remainingAmount = round2 fv ∧
        hd.faceValue = some (round2 fv) ∧ hd.purchasePrice = some price) ∧
      (∃ txn, st1.txns = st.txns ++ [txn] ∧ txn.type = TxnType.buy ∧ txn.amount = price)) ∧
    buyTreasury ⟨[(1, 500000)], [], [], 1⟩ 1 "6M" 100000 (9 / 2) 0 =
      .ok ⟨[(1, 402250)],
           [⟨1, 1, "6M", 100000, 9 / 2, 0, 100000, some 100000, some 97750, some "bill"⟩],
           [⟨1, TxnType.buy, some "6M", 97750, some (9 / 2), 402250, some 1⟩], 2⟩ := by
  obtain ⟨t0, hsec0, hcomp0, hfv0, hy0, hy100, hic⟩ := purchasePriceOf_ok_facts hprice
  refine ⟨fun hlt => buyTreasury_error_of_low_balance hprice hbal hlt, ?_, ?_⟩
  · intro st1 hok
    obtain ⟨t, price2, bal2, hd, txn, hsec2, hcomp2, hbal2, hle, hhd, hfvpos, hhold, husers,
      htxns, htype, hamt, _⟩ := buyTreasury_ok_inv hok
    have hpp : purchasePriceOf term fv y = .ok price2 := by
      unfold purchasePriceOf
      rw [hsec2]
      exact hcomp2
    rw [hprice] at hpp
    injection hpp with hpz
    subst hpz
    rw [hbal] at hbal2
    injection hbal2 with hbz
    subst hbz
    refine ⟨?_, ⟨hd, hhold, by rw [hhd], by rw [hhd], by rw [hhd, hic.round2_eq]⟩,
      ⟨txn, htxns, htype, by rw [hamt, hic.round2_eq]⟩⟩
    unfold getUser at hbal ⊢
    rw [husers, sub_eq_add_neg]
    exact getUser_map_update st.users userId (-price) bal hbal
  · norm_num [buyTreasury, computePurchasePrice, calculateBillPrice, getSecurityType,
      termDurationDays, getUser, updateUserBalance, insertHolding, insertTxn,
      List.find?, round2, roundAway, SecurityType.str]

/-- Witness for C1 at the spec scenario: price 97750, balance 500000. -/
theorem buyTreasury_uses_purchase_price_witness :
    ((500000 : ℚ) < 97750 →
      buyTreasury ⟨[(1, 500000)], [], [], 1⟩ 1 "6M" 100000 (9 / 2) 0 =
        .error .insufficientBalance) ∧
    (∀ st1, buyTreasury ⟨[(1, 500000)], [], [], 1⟩ 1 "6M" 100000 (9 / 2) 0 = .ok st1 →
      getUser st1 1 = some (round2 (500000 - 97750)) ∧
      (∃ hd, st1.holdings = [] ++ [hd] ∧ hd.remainingAmount = round2 100000 ∧
        hd.faceValue = some (round2 100000) ∧ hd.purchasePrice = some 97750) ∧
      (∃ txn, st1.txns = [] ++ [txn] ∧ txn.type = TxnType.buy ∧ txn.amount = 97750)) ∧
    buyTreasury ⟨[(1, 500000)], [], [], 1⟩ 1 "6M" 100000 (9 / 2) 0 =
      .ok ⟨[(1, 402250)],
           [⟨1, 1, "6M", 100000, 9 / 2, 0, 100000, some 100000, some 97750, some "bill"⟩],
           [⟨1, TxnType.buy, some "6M", 97750, some (9 / 2), 402250, some 1⟩], 2⟩ :=
  buyTreasury_uses_purchase_price ⟨[(1, 500000)], [], [], 1⟩ 1 "6M" 100000 (9 / 2) 0 97750 500000
    (by norm_num [purchasePriceOf, computePurchasePrice, calculateBillPrice, getSecurityType,
      termDurationDays, round2, roundAway])
    (by norm_num [getUser, List.find?])

/-- C2: a buy whose computed purchase price exceeds the balance fails with
the insufficient-balance error and leaves the state unchanged — no holding,
no transaction, no balance change — and any error from `buyTreasury`
discards all of the atomic unit's writes. -/
theorem buyTreasury_insufficient_balance_atomic (st : LedgerState) (userId : Nat)
    (term : String) (fv y : ℚ) (now : Int) (price bal : ℚ)
    (hprice : purchasePriceOf term fv y = .ok price)
    (hbal : getUser st userId = some bal) (hlt : bal < price) :
    buyTreasury st userId term fv y now = .error .insufficientBalance ∧
    buyStep st userId term fv y now = st ∧
    (buyStep st userId term fv y now).holdings = st.holdings ∧
    (buyStep st userId term fv y now).txns = st.txns ∧
    getUser (buyStep st userId term fv y now) userId = some bal ∧
    (∀ st2 uid2 term2 fv2 y2 now2 e,
      buyTreasury st2 uid2 term2 fv2 y2 now2 = Except.error e →
      buyStep st2 uid2 term2 fv2 y2 now2 = st2) := by
  have herr := @buyTreasury_error_of_low_balance st userId term fv y now price bal
    hprice hbal hlt
  have hstep := buyStep_eq_of_error herr
  exact ⟨herr, hstep, by rw [hstep], by rw [hstep], by rw [hstep, hbal],
    fun st2 uid2 term2 fv2 y2 now2 e he => buyStep_eq_of_error he⟩

/-- Witness for C2: the integration test's scenario — balance $50,000,
6M bill with face value $100,000 at 4.5% (price $97,750). -/
theorem buyTreasury_insufficient_balance_witness :
    buyTreasury ⟨[(7, 50000)], [], [], 1⟩ 7 "6M" 100000 (9 / 2) 0 =
      .error .insufficientBalance ∧
    buyStep ⟨[(7, 50000)], [], [], 1⟩ 7 "6M" 100000 (9 / 2) 0 = ⟨[(7, 50000)], [], [], 1⟩ ∧
    (buyStep ⟨[(7, 50000)], [], [], 1⟩ 7 "6M" 100000 (9 / 2) 0).holdings = [] ∧
    (buyStep ⟨[(7, 50000)], [], [], 1⟩ 7 "6M" 100000 (9 / 2) 0).txns = [] ∧
    getUser (buyStep ⟨[(7, 50000)], [], [], 1⟩ 7 "6M" 100000 (9 / 2) 0) 7 = some 50000 ∧
    (∀ st2 uid2 term2 fv2 y2 now2 e,
      buyTreasury st2 uid2 term2 fv2 y2 now2 = Except.error e →
      buyStep st2 uid2 term2 fv2 y2 now2 = st2) :=
  buyTreasury_insufficient_balance_atomic ⟨[(7, 50000)], [], [], 1⟩ 7 "6M" 100000 (9 / 2) 0
    97750 50000
    (by norm_num [purchasePriceOf, computePurchasePrice, calculateBillPrice, getSecurityType,
      termDurationDays, round2, roundAway])
    (by norm_num [getUser, List.find?])
    (by norm_num)

/-- C9: a buy with a valid term, positive face value and yield above 100
fails with the pricing engine's yield-range error before touching any
state, even though the buy path itself only checks yield >= 0. -/
theorem buyTreasury_rejects_yield_above_100 (st : LedgerState) (userId : Nat)
    (term : String) (fv y : ℚ) (now : Int) (t : SecurityType)
    (hterm : getSecurityType term = .ok t) (h0 : 0 < fv) (hy : 100 < y) :
    buyTreasury st userId term fv y now = .error (.pricing .invalidYield) ∧
    buyStep st userId term fv y now = st := by
  have hyn : ¬ y < 0 := not_lt.mpr (by linarith)
  have hcomp : computePurchasePrice t fv y term = .error .invalidYield := by
    unfold computePurchasePrice
    by_cases hb : t = SecurityType.bill
    · rw [if_pos hb]
      unfold calculateBillPrice
      rw [hterm, hb]
      simp [not_le.mpr h0, hy]
    · rw [if_neg hb]
      unfold calculateNoteBondPrice
      simp [not_le.mpr h0, hy]
  have herr : buyTreasury st userId term fv y now = .error (.pricing .invalidYield) := by
    unfold buyTreasury
    rw [hterm]
    simp [not_le.mpr h0, hyn, hcomp]
  exact ⟨herr, buyStep_eq_of_error herr⟩

/-- Witness for C9 at a concrete over-range yield. -/
theorem buyTreasury_rejects_yield_above_100_witness :
    buyTreasury ⟨[(1, 1000)], [], [], 1⟩ 1 "6M" 100 101 0 =
      .error (.pricing .invalidYield) ∧
    buyStep ⟨[(1, 1000)], [], [], 1⟩ 1 "6M" 100 101 0 = ⟨[(1, 1000)], [], [], 1⟩ :=
  buyTreasury_rejects_yield_above_100 ⟨[(1, 1000)], [], [], 1⟩ 1 "6M" 100 101 0
    SecurityType.bill rfl (by norm_num) (by norm_num)

theorem sellTreasury_ok_holdings {st : LedgerState} {uid hid : Nat} {amt : ℚ} {now : Int}
    {stF : LedgerState} (h : sellTreasury st uid hid amt now = .ok stF) :
    ∃ h0, getHoldingByID st hid = some h0 ∧ 0 < amt ∧ amt ≤ h0.remainingAmount ∧
      stF.holdings = st.holdings.map fun g =>
        if g.id == hid then { g with remainingAmount := round2 (h0.remainingAmount - amt) }
        else g := by
  unfold sellTreasury at h
  by_cases hle : amt ≤ 0
  · rw [if_pos hle] at h
    exact absurd h (by simp)
  rw [if_neg hle] at h
  cases hfound : getHoldingByID st hid with
  | none =>
    simp only [hfound] at h
    exact absurd h (by simp)
  | some h0 =>
  simp only [hfound] at h
  by_cases hown : h0.userId ≠ uid
  · rw [if_pos hown] at h
    exact absurd h (by simp)
  rw [if_neg hown] at h
  by_cases hrem : h0.remainingAmount < amt
  · rw [if_pos hrem] at h
    exact absurd h (by simp)
  rw [if_neg hrem] at h
  cases hres : resolveSecurityType h0 with
  | error e =>
    simp only [hres] at h
    exact absurd h (by simp)
  | ok sec =>
  simp only [hres] at h
  cases hpro : sellProceeds h0 amt now sec with
  | error e =>
    simp only [hpro] at h
    exact absurd h (by simp)
  | ok proceeds =>
  simp only [hpro] at h
  cases hupH : updateHoldingRemainingAmount st hid (h0.remainingAmount - amt) with
  | error e =>
    simp only [hupH] at h
    exact absurd h (by simp)
  | ok st1 =>
  simp only [hupH] at h
  cases hupB : updateUserBalance st1 uid (round2 proceeds) with
  | error e =>
    simp only [hupB] at h
    exact absurd h (by simp)
  | ok pr =>
  obtain ⟨st2, newBal⟩ := pr
  simp only [hupB] at h
  split at h
  · exact absurd h (by simp)
  rename_i st3 htxn
  have hF : st3 = stF := by injection h
  subst hF
  obtain ⟨h0b, hfound2, _, _, hst1⟩ := updateHoldingRemainingAmount_ok_inv hupH
  rw [hfound] at hfound2
  injection hfound2 with hh
  subst hh
  obtain ⟨balx, _, _, _, hst2⟩ := updateUserBalance_ok_inv hupB
  obtain ⟨_, hst3⟩ := insertTxn_ok_inv htxn
  refine ⟨h0, rfl, not_le.mp hle, not_lt.mp hrem, ?_⟩
  rw [hst3, hst2, hst1]

theorem getHoldingByID_some_facts {st : LedgerState} {hid : Nat} {h0 : Holding}
    (h : getHoldingByID st hid = some h0) : h0 ∈ st.holdings ∧ h0.id = hid := by
  unfold getHoldingByID at h
  have hp := @List.find?_some Holding (fun g => g.id == hid) h0 st.holdings h
  exact ⟨List.mem_of_find?_eq_some h, eq_of_beq hp⟩

theorem sellStep_preserves_rem_inv (hid : Nat) (cap : ℚ) (st : LedgerState) (op : SellOp)
    (hinv : ∀ g ∈ st.holdings, g.id = hid →
      0 ≤ g.remainingAmount ∧ g.remainingAmount ≤ cap ∧ IsCents g.remainingAmount) :
    ∀ g ∈ (sellStep st op).holdings, g.id = hid →
      0 ≤ g.remainingAmount ∧ g.remainingAmount ≤ cap ∧ IsCents g.remainingAmount := by
  intro g hg hgid
  cases hsell : sellTreasury st op.userId op.holdingId op.amount op.now with
  | error e =>
    rw [sellStep_eq_of_error hsell] at hg
    exact hinv g hg hgid
  | ok stF =>
    have hstep : sellStep st op = stF := by unfold sellStep; rw [hsell]
    rw [hstep] at hg
    obtain ⟨h0, hfound, hpos, hle, hmap⟩ := sellTreasury_ok_holdings hsell
    rw [hmap] at hg
    obtain ⟨g0, hg0, hgeq⟩ := List.mem_map.mp hg
    by_cases hidq : (g0.id == op.holdingId) = true
    · rw [if_pos hidq] at hgeq
      subst hgeq
      obtain ⟨hmem, h1⟩ := getHoldingByID_some_facts hfound
      have hh0id : h0.id = hid := by
        have h2 : g0.id = op.holdingId := eq_of_beq hidq
        rw [h1, ← h2]
        exact hgid
      obtain ⟨hb1, hb2, hb3⟩ := hinv h0 hmem hh0id
      refine ⟨round2_nonneg (by linarith), ?_, round2_isCents _⟩
      have hx : round2 (h0.remainingAmount - op.amount) ≤ h0.remainingAmount :=
        round2_le_of_isCents hb3 (by linarith)
      exact le_trans hx hb2
    · rw [if_neg hidq] at hgeq
      subst hgeq
      exact hinv g0 hg0 hgid

theorem runSells_preserves_rem_inv (hid : Nat) (cap : ℚ) (ops : List SellOp)
    (st : LedgerState)
    (hinv : ∀ g ∈ st.holdings, g.id = hid →
      0 ≤ g.remainingAmount ∧ g.remainingAmount ≤ cap ∧ IsCents g.remainingAmount) :
    ∀ g ∈ (runSells st ops).holdings, g.id = hid →
      0 ≤ g.remainingAmount ∧ g.remainingAmount ≤ cap ∧ IsCents g.remainingAmount := by
  induction ops generalizing st with
  | nil => exact hinv
  | cons op ops ih => exact ih (sellStep st op) (sellStep_preserves_rem_inv hid cap st op hinv)

/-! ### Claim theorems: sell validation and the remaining-amount invariant -/

/-- C3: `sellTreasury` fails in source order, touching no state: with the
invalid-amount error for every amount <= 0; with not-found when no holding
with the id exists; with forbidden when the holding's owner differs from
the caller; and with the "insufficient remaining amount" invalid-amount
error when the amount exceeds the holding's remainingAmount. -/
theorem sellTreasury_validation_order (st : LedgerState) (userId holdingId : Nat)
    (amount : ℚ) (now : Int) :
    (amount ≤ 0 → sellTreasury st userId holdingId amount now = .error .invalidAmount) ∧
    (0 < amount → getHoldingByID st holdingId = none →
      sellTreasury st userId holdingId amount now = .error .notFound) ∧
    (∀ h, 0 < amount → getHoldingByID st holdingId = some h → h.userId ≠ userId →
      sellTreasury st userId holdingId amount now = .error .forbidden) ∧
    (∀ h, 0 < amount → getHoldingByID st holdingId = some h → h.userId = userId →
      h.remainingAmount < amount →
      sellTreasury st userId holdingId amount now = .error .insufficientRemaining) ∧
    (∀ e, sellTreasury st userId holdingId amount now = .error e →
      sellStep st ⟨userId, holdingId, amount, now⟩ = st) := by
  refine ⟨?_, ?_, ?_, ?_, ?_⟩
  · intro hle
    unfold sellTreasury
    rw [if_pos hle]
  · intro hpos hnone
    unfold sellTreasury
    rw [if_neg (not_le.mpr hpos)]
    simp only [hnone]
  · intro h hpos hsome hne
    unfold sellTreasury
    rw [if_neg (not_le.mpr hpos)]
    simp only [hsome]
    rw [if_pos hne]
  · intro h hpos hsome heq hrem
    unfold sellTreasury
    rw [if_neg (not_le.mpr hpos)]
    simp only [hsome]
    rw [if_neg (fun hne => hne heq), if_pos hrem]
  · intro e herr
    exact sellStep_eq_of_error herr

/-- Witness for C3: a holding (id 1, owner 5, remainingAmount 40) and the
four rejected calls. -/
theorem sellTreasury_validation_order_witness :
    sellTreasury ⟨[(5, 10)], [⟨1, 5, "1M", 100, 0, 0, 40, some 100, some 100, some "bill"⟩],
        [], 2⟩ 5 1 0 0 = .error .invalidAmount ∧
    sellTreasury ⟨[(5, 10)], [⟨1, 5, "1M", 100, 0, 0, 40, some 100, some 100, some "bill"⟩],
        [], 2⟩ 5 2 10 0 = .error .notFound ∧
    sellTreasury ⟨[(5, 10)], [⟨1, 5, "1M", 100, 0, 0, 40, some 100, some 100, some "bill"⟩],
        [], 2⟩ 9 1 10 0 = .error .forbidden ∧
    sellTreasury ⟨[(5, 10)], [⟨1, 5, "1M", 100, 0, 0, 40, some 100, some 100, some "bill"⟩],
        [], 2⟩ 5 1 50 0 = .error .insufficientRemaining ∧
    sellStep ⟨[(5, 10)], [⟨1, 5, "1M", 100, 0, 0, 40, some 100, some 100, some "bill"⟩],
        [], 2⟩ ⟨5, 1, 0, 0⟩ = ⟨[(5, 10)],
        [⟨1, 5, "1M", 100, 0, 0, 40, some 100, some 100, some "bill"⟩], [], 2⟩ := by
  refine ⟨?_, ?_, ?_, ?_, ?_⟩
  · exact (sellTreasury_validation_order _ 5 1 0 0).1 (by norm_num)
  · exact (sellTreasury_validation_order _ 5 2 10 0).2.1 (by norm_num) (by decide)
  · exact (sellTreasury_validation_order _ 9 1 10 0).2.2.1
      ⟨1, 5, "1M", 100, 0, 0, 40, some 100, some 100, some "bill"⟩
      (by norm_num) (by decide) (by decide)
  · exact (sellTreasury_validation_order _ 5 1 50 0).2.2.2.1
      ⟨1, 5, "1M", 100, 0, 0, 40, some 100, some 100, some "bill"⟩
      (by norm_num) (by decide) rfl (by norm_num)
  · exact (sellTreasury_validation_order _ 5 1 0 0).2.2.2.2 .invalidAmount
      ((sellTreasury_validation_order _ 5 1 0 0).1 (by norm_num))

/-- C7: a holding created by `buyTreasury` starts with remainingAmount equal
to its (cent-rounded) face value; after any sequence of sequential sells,
0 <= remainingAmount <= faceValue always holds; a successful sell of
exactly the current remainingAmount drives it to 0; and once
remainingAmount is 0, any positive-amount sell on that holding fails with
the "insufficient remaining amount" invalid-amount error. -/
theorem holding_remaining_invariant (st : LedgerState) (userId : Nat) (term : String)
    (fv y : ℚ) (now : Int) (st1 : LedgerState)
    (hfresh : ∀ g ∈ st.holdings, g.id ≠ st.nextHoldingId)
    (hbuy : buyTreasury st userId term fv y now = .ok st1) :
    (∀ ops, ∀ g ∈ (runSells st1 ops).holdings, g.id = st.nextHoldingId →
      0 ≤ g.remainingAmount ∧ g.remainingAmount ≤ round2 fv) ∧
    (∀ st2 uid2 hid amt now2 stF h, getHoldingByID st2 hid = some h →
      amt = h.remainingAmount → sellTreasury st2 uid2 hid amt now2 = .ok stF →
      ∀ g ∈ stF.holdings, g.id = hid → g.remainingAmount = 0) ∧
    (∀ st2 uid2 hid amt now2 h, getHoldingByID st2 hid = some h → h.userId = uid2 →
      h.remainingAmount = 0 → 0 < amt →
      sellTreasury st2 uid2 hid amt now2 = .error .insufficientRemaining) := by
  refine ⟨?_, ?_, ?_⟩
  · intro ops
    obtain ⟨t, price, bal, hd, txn, hsec, hcomp, hbal, hle, hhd, hfvpos, hhold, husers,
      htxns, htype, hamt, _⟩ := buyTreasury_ok_inv hbuy
    have hinit : ∀ g ∈ st1.holdings, g.id = st.nextHoldingId →
        0 ≤ g.remainingAmount ∧ g.remainingAmount ≤ round2 fv ∧
          IsCents g.remainingAmount := by
      intro g hg hgid
      rw [hhold] at hg
      rcases List.mem_append.mp hg with hold | hnew
      · exact absurd hgid (hfresh g hold)
      · have : g = hd := by simpa using hnew
        subst this
        rw [hhd]
        exact ⟨hfvpos.le, le_refl _, round2_isCents fv⟩
    intro g hg hgid
    obtain ⟨h1, h2, _⟩ :=
      runSells_preserves_rem_inv st.nextHoldingId (round2 fv) ops st1 hinit g hg hgid
    exact ⟨h1, h2⟩
  · intro st2 uid2 hid amt now2 stF h hfound heq hsell g hg hgid
    obtain ⟨h0, hfound0, hpos, hle, hmap⟩ := sellTreasury_ok_holdings hsell
    rw [hfound] at hfound0
    injection hfound0 with hh
    subst hh
    rw [hmap] at hg
    obtain ⟨g0, hg0, hgeq⟩ := List.mem_map.mp hg
    by_cases hidq : (g0.id == hid) = true
    · rw [if_pos hidq] at hgeq
      subst hgeq
      show round2 (h.remainingAmount - amt) = 0
      rw [← heq, sub_self]
      norm_num [round2, roundAway]
    · rw [if_neg hidq] at hgeq
      subst hgeq
      exact absurd (by simp [hgid]) hidq
  · intro st2 uid2 hid amt now2 h hfound hown hrem0 hamt
    unfold sellTreasury
    rw [if_neg (not_le.mpr hamt)]
    simp only [hfound]
    rw [if_neg (fun hne => hne hown), if_pos (by rw [hrem0]; exact hamt)]

/-- Witness for C7: buy of a 1M bill with face value 100 at yield 0 over a
fresh ledger, then the sells of the second and third conjuncts on the
resulting holding. -/
theorem holding_remaining_invariant_witness :
    (∀ ops, ∀ g ∈ (runSells ⟨[(1, 0)],
        [⟨1, 1, "1M", 100, 0, 0, 100, some 100, some 100, some "bill"⟩],
        [⟨1, TxnType.buy, some "1M", 100, some 0, 0, some 1⟩], 2⟩ ops).holdings,
      g.id = 1 → 0 ≤ g.remainingAmount ∧ g.remainingAmount ≤ round2 100) ∧
    (∀ st2 uid2 hid amt now2 stF h, getHoldingByID st2 hid = some h →
      amt = h.remainingAmount → sellTreasury st2 uid2 hid amt now2 = .ok stF →
      ∀ g ∈ stF.holdings, g.id = hid → g.remainingAmount = 0) ∧
    (∀ st2 uid2 hid amt now2 h, getHoldingByID st2 hid = some h → h.userId = uid2 →
      h.remainingAmount = 0 → 0 < amt →
      sellTreasury st2 uid2 hid amt now2 = .error .insufficientRemaining) :=
  holding_remaining_invariant ⟨[(1, 100)], [], [], 1⟩ 1 "1M" 100 0 0
    ⟨[(1, 0)], [⟨1, 1, "1M", 100, 0, 0, 100, some 100, some 100, some "bill"⟩],
      [⟨1, TxnType.buy, some "1M", 100, some 0, 0, some 1⟩], 2⟩
    (by simp)
    (by norm_num [buyTreasury, computePurchasePrice, calculateBillPrice, getSecurityType,
      termDurationDays, getUser, updateUserBalance, insertHolding, insertTxn,
      List.find?, round2, roundAway, SecurityType.str])

/-! ### Claim theorems: the pricing engine -/

/-- C4: for every bill term, positive face value and yield in [0, 100],
`billPrice` returns `faceValue * (1 - (yieldRate/100 * days)/360)` with the
term's day count (1M=30, 3M=90, 6M=180, 1Y=365), rounded to the cent with
commercial round-half-up (ties away from zero, exactly `math.Round`), and in
particular `billPrice(10000, 4.5, "6M") = 9775.00` and
`billPrice(10000, 0, "6M") = 10000.00`. -/
theorem billPrice_formula_and_examples (fv y : ℚ)
    (h0 : 0 < fv) (h1 : 0 ≤ y) (h2 : y ≤ 100) :
    calculateBillPrice fv y "1M" = .ok (round2 (fv * (1 - (y / 100 * 30) / 360))) ∧
    calculateBillPrice fv y "3M" = .ok (round2 (fv * (1 - (y / 100 * 90) / 360))) ∧
    calculateBillPrice fv y "6M" = .ok (round2 (fv * (1 - (y / 100 * 180) / 360))) ∧
    calculateBillPrice fv y "1Y" = .ok (round2 (fv * (1 - (y / 100 * 365) / 360))) ∧
    calculateBillPrice 10000 (9 / 2) "6M" = .ok 9775 ∧
    calculateBillPrice 10000 0 "6M" = .ok 10000 := by
  refine ⟨?_, ?_, ?_, ?_, ?_, ?_⟩
  · rw [calculateBillPrice_of_checks "1M" 30 fv y rfl rfl h0 h1 h2]; norm_num
  · rw [calculateBillPrice_of_checks "3M" 90 fv y rfl rfl h0 h1 h2]; norm_num
  · rw [calculateBillPrice_of_checks "6M" 180 fv y rfl rfl h0 h1 h2]; norm_num
  · rw [calculateBillPrice_of_checks "1Y" 365 fv y rfl rfl h0 h1 h2]; norm_num
  · rw [calculateBillPrice_of_checks "6M" 180 10000 (9 / 2) rfl rfl (by norm_num) (by norm_num)
      (by norm_num)]
    norm_num [round2, roundAway]
  · rw [calculateBillPrice_of_checks "6M" 180 10000 0 rfl rfl (by norm_num) (by norm_num)
      (by norm_num)]
    norm_num [round2, roundAway]

/-- Witness for C4 at the spec's own example inputs. -/
theorem billPrice_formula_witness :
    calculateBillPrice 10000 (9 / 2) "6M" = .ok 9775 ∧
    calculateBillPrice 10000 0 "6M" = .ok 10000 := by
  have h := billPrice_formula_and_examples 10000 (9 / 2) (by norm_num) (by norm_num) (by norm_num)
  exact ⟨h.2.2.2.2.1, h.2.2.2.2.2⟩

/-- C5 fails as stated: cent rounding breaks both conjuncts.  With face
value $0.006 and yield 0 the returned price $0.01 exceeds the face value,
and with face value $1 the prices at yields 0 and 0.001 are both $1.00, so
the price is not strictly decreasing in the yield. -/
theorem billPrice_monotonicity_counterexample :
    calculateBillPrice (3 / 500) 0 "1M" = .ok (1 / 100) ∧ (3 / 500 : ℚ) < 1 / 100 ∧
    calculateBillPrice 1 0 "1M" = .ok 1 ∧
    calculateBillPrice 1 (1 / 1000) "1M" = .ok 1 ∧ (0 : ℚ) < 1 / 1000 := by
  refine ⟨?_, by norm_num, ?_, ?_, by norm_num⟩
  · rw [calculateBillPrice_of_checks "1M" 30 (3 / 500) 0 rfl rfl (by norm_num) (by norm_num)
      (by norm_num)]
    norm_num [round2, roundAway]
  · rw [calculateBillPrice_of_checks "1M" 30 1 0 rfl rfl (by norm_num) (by norm_num) (by norm_num)]
    norm_num [round2, roundAway]
  · rw [calculateBillPrice_of_checks "1M" 30 1 (1 / 1000) rfl rfl (by norm_num) (by norm_num)
      (by norm_num)]
    norm_num [round2, roundAway]

/-- C5 (amended): for every bill term, positive face value and yields
`0 ≤ y1 ≤ y2 ≤ 100`, `billPrice` is weakly decreasing in the yield, and is
bounded by the face value rounded to the cent — hence by the face value
itself whenever the face value is a whole number of cents.  (Strict
decrease, and the bound for sub-cent face values, fail by the
counterexample.) -/
theorem billPrice_le_face_and_weakly_decreasing (term : String) (fv y1 y2 : ℚ)
    (hterm : term = "1M" ∨ term = "3M" ∨ term = "6M" ∨ term = "1Y")
    (h0 : 0 < fv) (hy1 : 0 ≤ y1) (h12 : y1 ≤ y2) (hy2 : y2 ≤ 100) :
    ∃ p1 p2, calculateBillPrice fv y1 term = .ok p1 ∧ calculateBillPrice fv y2 term = .ok p2 ∧
      p2 ≤ p1 ∧ p1 ≤ round2 fv ∧ (IsCents fv → p1 ≤ fv) := by
  have main : ∀ days : Int, getSecurityType term = Except.ok SecurityType.bill →
      termDurationDays term = Except.ok days → 0 ≤ (days : ℚ) →
      ∃ p1 p2, calculateBillPrice fv y1 term = .ok p1 ∧ calculateBillPrice fv y2 term = .ok p2 ∧
        p2 ≤ p1 ∧ p1 ≤ round2 fv ∧ (IsCents fv → p1 ≤ fv) := by
    intro days hsec hdays hd
    obtain ⟨e1, e2, h21, harg⟩ := billPrice_mono_aux term days fv y1 y2 hsec hdays hd h0 hy1 h12 hy2
    refine ⟨_, _, e1, e2, h21, ?_, ?_⟩
    · exact round2_mono harg
    · intro hc
      exact le_of_le_of_eq (round2_mono harg) hc.round2_eq
  rcases hterm with rfl | rfl | rfl | rfl
  · exact main 30 rfl rfl (by norm_num)
  · exact main 90 rfl rfl (by norm_num)
  · exact main 180 rfl rfl (by norm_num)
  · exact main 365 rfl rfl (by norm_num)

/-- Witness for the amended C5 at a concrete bill. -/
theorem billPrice_weakly_decreasing_witness :
    ∃ p1 p2, calculateBillPrice 10000 2 "6M" = .ok p1 ∧ calculateBillPrice 10000 3 "6M" = .ok p2 ∧
      p2 ≤ p1 ∧ p1 ≤ round2 10000 ∧ (IsCents 10000 → p1 ≤ 10000) :=
  billPrice_le_face_and_weakly_decreasing "6M" 10000 2 3 (Or.inr (Or.inr (Or.inl rfl)))
    (by norm_num) (by norm_num) (by norm_num) (by norm_num)

/-- C6: for every positive face value, yield in [0, 100] and note or bond
term, `noteBondPrice` returns `round2(faceValue)` — the yield never affects
the price — while an out-of-range face value or yield still fails
validation. -/
theorem noteBondPrice_par_invariant (fv y : ℚ) (term : String)
    (h0 : 0 < fv) (h1 : 0 ≤ y) (h2 : y ≤ 100)
    (ht : term = "2Y" ∨ term = "5Y" ∨ term = "10Y" ∨ term = "30Y") :
    calculateNoteBondPrice fv y term = .ok (round2 fv) ∧
    (∀ fv2 y2 : ℚ, fv2 ≤ 0 → calculateNoteBondPrice fv2 y2 term = .error .invalidFaceValue) ∧
    (∀ fv2 y2 : ℚ, 0 < fv2 → y2 < 0 ∨ 100 < y2 →
      calculateNoteBondPrice fv2 y2 term = .error .invalidYield) := by
  refine ⟨?_, ?_, ?_⟩
  · rcases ht with rfl | rfl | rfl | rfl
    · exact calculateNoteBondPrice_of_checks _ SecurityType.note fv y rfl (Or.inl rfl) h0 h1 h2
    · exact calculateNoteBondPrice_of_checks _ SecurityType.note fv y rfl (Or.inl rfl) h0 h1 h2
    · exact calculateNoteBondPrice_of_checks _ SecurityType.note fv y rfl (Or.inl rfl) h0 h1 h2
    · exact calculateNoteBondPrice_of_checks _ SecurityType.bond fv y rfl (Or.inr rfl) h0 h1 h2
  · intro fv2 y2 hle
    unfold calculateNoteBondPrice
    rw [if_pos hle]
  · intro fv2 y2 h02 hy2
    unfold calculateNoteBondPrice
    rw [if_neg (not_le.mpr h02), if_pos hy2]

/-- Witness for C6 at a concrete note. -/
theorem noteBondPrice_par_witness :
    calculateNoteBondPrice 100 5 "2Y" = .ok (round2 100) ∧
    calculateNoteBondPrice (-1) 5 "2Y" = .error .invalidFaceValue ∧
    calculateNoteBondPrice 100 101 "2Y" = .error .invalidYield := by
  have h := noteBondPrice_par_invariant 100 5 "2Y" (by norm_num) (by norm_num) (by norm_num)
    (Or.inl rfl)
  exact ⟨h.1, h.2.1 (-1) 5 (by norm_num), h.2.2 100 101 (by norm_num) (Or.inr (by norm_num))⟩

/-- C10: inputs inside the accepted ranges can produce a zero or negative
price: at face value 10000, yield 100 and term 1Y the discount factor is
365/360 > 1 and `billPrice` returns -138.89; the function imposes no lower
bound of zero. -/
theorem billPrice_can_be_negative :
    calculateBillPrice 10000 100 "1Y" = .ok (-(13889 / 100 : ℚ)) ∧
    (-(13889 / 100 : ℚ)) < 0 := by
  refine ⟨?_, by norm_num⟩
  rw [calculateBillPrice_of_checks "1Y" 365 10000 100 rfl rfl (by norm_num) (by norm_num)
    (by norm_num)]
  norm_num [round2, roundAway]

/-! ### Lemmas on the Go string order -/

theorem chLt_irrefl : ∀ l : List Char, chLt l l = false
  | [] => rfl
  | a :: as => by
    simp [chLt, chLt_irrefl as, lt_irrefl]

theorem chLt_trichotomy : ∀ l1 l2 : List Char, chLt l1 l2 = true ∨ l1 = l2 ∨ chLt l2 l1 = true
  | [], [] => Or.inr (Or.inl rfl)
  | [], _ :: _ => Or.inl (by simp [chLt])
  | _ :: _, [] => Or.inr (Or.inr (by simp [chLt]))
  | a :: as, b :: bs => by
    rcases lt_trichotomy a b with h | h | h
    · exact Or.inl (by simp [chLt, h])
    · subst h
      rcases chLt_trichotomy as bs with h2 | h2 | h2
      · exact Or.inl (by simp [chLt, h2])
      · exact Or.inr (Or.inl (by rw [h2]))
      · exact Or.inr (Or.inr (by simp [chLt, h2]))
    · exact Or.inr (Or.inr (by simp [chLt, h]))

theorem chLt_trans : ∀ l1 l2 l3 : List Char,
    chLt l1 l2 = true → chLt l2 l3 = true → chLt l1 l3 = true
  | l1, [], _ => by
    intro h1 _
    exact absurd h1 (by cases l1 <;> simp [chLt])
  | _, _ :: _, [] => by
    intro _ h2
    exact absurd h2 (by simp [chLt])
  | [], _ :: _, _ :: _ => by
    intro _ _
    simp [chLt]
  | a :: as, b :: bs, c :: cs => by
    simp only [chLt, Bool.or_eq_true, Bool.and_eq_true, decide_eq_true_eq]
    rintro (hab | ⟨hab, habs⟩) (hbc | ⟨hbc, hbcs⟩)
    · exact Or.inl (lt_trans hab hbc)
    · exact Or.inl (hbc ▸ hab)
    · exact Or.inl (hab ▸ hbc)
    · exact Or.inr ⟨hab.trans hbc, chLt_trans as bs cs habs hbcs⟩

theorem goStrLt_irrefl (s : String) : goStrLt s s = false :=
  chLt_irrefl s.toList

theorem goStrLt_total {a b : String} (h : goStrLt a b = false) :
    b.toList = a.toList ∨ goStrLt b a = true := by
  rcases chLt_trichotomy a.toList b.toList with h1 | h1 | h1
  · rw [goStrLt] at h
    rw [h1] at h
    cases h
  · exact Or.inl h1.symm
  · exact Or.inr h1

theorem goStrLt_dominates {q0 q p : String} (h1 : goStrLt q0 q = false)
    (h2 : goStrLt q0 p = true) : goStrLt p q = false := by
  cases hb : goStrLt p q
  · rfl
  · have h3 := chLt_trans q0.toList p.toList q.toList h2 hb
    rw [goStrLt] at h1
    rw [h1] at h3
    cases h3

/-! ### Lemmas on the sampling pipeline -/

theorem mem_insertByDate (p : DataPoint) : ∀ (l : List DataPoint) (a : DataPoint),
    a ∈ insertByDate p l ↔ a = p ∨ a ∈ l
  | [], a => by simp [insertByDate]
  | q :: rest, a => by
    unfold insertByDate
    by_cases h : goStrLt p.date q.date = true
    · rw [if_pos h]
      simp [List.mem_cons]
    · rw [if_neg h]
      simp only [List.mem_cons, mem_insertByDate p rest a]
      tauto

theorem mem_sortByDate (l : List DataPoint) (a : DataPoint) : a ∈ sortByDate l ↔ a ∈ l := by
  induction l with
  | nil => simp [sortByDate]
  | cons q rest ih =>
    have hstep : sortByDate (q :: rest) = insertByDate q (sortByDate rest) := rfl
    rw [hstep, mem_insertByDate, ih, List.mem_cons]

theorem lookupBucket_some {m : List ((Int × Int) × DataPoint)} {k : Int × Int}
    {q : DataPoint} (h : lookupBucket m k = some q) : (k, q) ∈ m := by
  unfold lookupBucket at h
  cases hf : m.find? (fun e => e.1 = k) with
  | none =>
    rw [hf] at h
    cases h
  | some e =>
    rw [hf] at h
    simp only [Option.map_some', Option.some.injEq] at h
    have hmem := List.mem_of_find?_eq_some hf
    have hp := @List.find?_some _ (fun e => e.1 = k) e m hf
    have hk : e.1 = k := of_decide_eq_true hp
    have : (k, q) = e := by
      rw [← hk, ← h]
    rw [this]
    exact hmem

theorem lookupBucket_none {m : List ((Int × Int) × DataPoint)} {k : Int × Int}
    (h : lookupBucket m k = none) : ∀ e ∈ m, e.1 ≠ k := by
  intro e he
  unfold lookupBucket at h
  cases hf : m.find? (fun e => e.1 = k) with
  | none =>
    intro hek
    have := List.find?_eq_none.mp hf e he
    exact this (by simpa using hek)
  | some e2 =>
    rw [hf] at h
    cases h

theorem bucketInv_nil (i : Nat) : BucketInv i [] [] :=
  ⟨fun e he => (List.not_mem_nil e he).elim, fun p hp => (List.not_mem_nil p hp).elim,
    fun e he => (List.not_mem_nil e he).elim⟩

theorem bucketInsert_inv (i : Nat) (pref : List DataPoint)
    (m : List ((Int × Int) × DataPoint)) (p : DataPoint) (h : BucketInv i pref m) :
    BucketInv i (pref ++ [p]) (bucketInsert i m p) := by
  obtain ⟨hW, hC, hU⟩ := h
  unfold bucketInsert
  cases hk : keyOf i p with
  | none =>
    dsimp only
    refine ⟨?_, ?_, hU⟩
    · intro e he
      obtain ⟨he1, he2, he3⟩ := hW e he
      refine ⟨he1, List.mem_append_left _ he2, ?_⟩
      intro q hq hkq
      rcases List.mem_append.mp hq with hq | hq
      · exact he3 q hq hkq
      · have hqp : p = q := Eq.symm (by simpa using hq)
        subst hqp
        rw [hk] at hkq
        cases hkq
    · intro q hq k hkq
      rcases List.mem_append.mp hq with hq | hq
      · exact hC q hq k hkq
      · have hqp : p = q := Eq.symm (by simpa using hq)
        subst hqp
        rw [hk] at hkq
        cases hkq
  | some k0 =>
    dsimp only
    cases hl : lookupBucket m k0 with
    | none =>
      dsimp only
      have hnone := lookupBucket_none hl
      refine ⟨?_, ?_, ?_⟩
      · intro e he
        rcases List.mem_append.mp he with he | he
        · obtain ⟨he1, he2, he3⟩ := hW e he
          refine ⟨he1, List.mem_append_left _ he2, ?_⟩
          intro q hq hkq
          rcases List.mem_append.mp hq with hq | hq
          · exact he3 q hq hkq
          · have hqp : p = q := Eq.symm (by simpa using hq)
            subst hqp
            rw [hk] at hkq
            injection hkq with hke
            exact absurd hke.symm (hnone e he)
        · have hep : e = (k0, p) := by simpa using he
          subst hep
          refine ⟨hk, List.mem_append_right _ (by simp), ?_⟩
          intro q hq hkq
          rcases List.mem_append.mp hq with hq | hq
          · obtain ⟨e2, he2, hk2⟩ := hC q hq k0 hkq
            exact absurd hk2 (hnone e2 he2)
          · have hqp : p = q := Eq.symm (by simpa using hq)
            subst hqp
            exact goStrLt_irrefl _
      · intro q hq k hkq
        rcases List.mem_append.mp hq with hq | hq
        · obtain ⟨e, he, hke⟩ := hC q hq k hkq
          exact ⟨e, List.mem_append_left _ he, hke⟩
        · have hqp : p = q := Eq.symm (by simpa using hq)
          subst hqp
          rw [hk] at hkq
          injection hkq with hkk
          exact ⟨(k0, p), List.mem_append_right _ (by simp), hkk⟩
      · intro e he e2 he2 hee
        rcases List.mem_append.mp he with he | he <;>
          rcases List.mem_append.mp he2 with he2 | he2
        · exact hU e he e2 he2 hee
        · have hx : e2 = (k0, p) := by simpa using he2
          subst hx
          exact absurd (by simpa using hee) (hnone e he)
        · have hx : e = (k0, p) := by simpa using he
          subst hx
          exact absurd (by simpa using hee.symm) (hnone e2 he2)
        · have hx : e = (k0, p) := by simpa using he
          have hy : e2 = (k0, p) := by simpa using he2
          rw [hx, hy]
    | some q0 =>
      dsimp only
      have hq0m := lookupBucket_some hl
      obtain ⟨hq01, hq02, hq03⟩ := hW (k0, q0) hq0m
      by_cases hlt : goStrLt q0.date p.date = true
      · rw [if_pos hlt]
        refine ⟨?_, ?_, ?_⟩
        · intro e he
          obtain ⟨e0, he0, hee⟩ := List.mem_map.mp he
          by_cases heq : e0.1 = k0
          · rw [if_pos heq] at hee
            subst hee
            refine ⟨hk, List.mem_append_right _ (by simp), ?_⟩
            intro q hq hkq
            rcases List.mem_append.mp hq with hq | hq
            · have hdom := hq03 q hq hkq
              exact goStrLt_dominates hdom hlt
            · have hqp : p = q := Eq.symm (by simpa using hq)
              subst hqp
              exact goStrLt_irrefl _
          · rw [if_neg heq] at hee
            subst hee
            obtain ⟨he1, he2, he3⟩ := hW e0 he0
            refine ⟨he1, List.mem_append_left _ he2, ?_⟩
            intro q hq hkq
            rcases List.mem_append.mp hq with hq | hq
            · exact he3 q hq hkq
            · have hqp : p = q := Eq.symm (by simpa using hq)
              subst hqp
              rw [hk] at hkq
              injection hkq with hkk
              exact absurd hkk.symm heq
        · intro q hq k hkq
          rcases List.mem_append.mp hq with hq | hq
          · obtain ⟨e, he, hke⟩ := hC q hq k hkq
            by_cases heq : e.1 = k0
            · refine ⟨(k0, p), List.mem_map.mpr ⟨e, he, by rw [if_pos heq]⟩, ?_⟩
              rw [← hke, heq]
            · exact ⟨e, List.mem_map.mpr ⟨e, he, by rw [if_neg heq]⟩, hke⟩
          · have hqp : p = q := Eq.symm (by simpa using hq)
            subst hqp
            rw [hk] at hkq
            injection hkq with hkk
            refine ⟨(k0, p), List.mem_map.mpr ⟨(k0, q0), hq0m, by rw [if_pos rfl]⟩, hkk⟩
        · intro e he e2 he2 hee
          obtain ⟨e0, he0, heq0⟩ := List.mem_map.mp he
          obtain ⟨e1, he1, heq1⟩ := List.mem_map.mp he2
          by_cases ha : e0.1 = k0 <;> by_cases hb : e1.1 = k0
          · rw [if_pos ha] at heq0
            rw [if_pos hb] at heq1
            rw [← heq0, ← heq1]
          · rw [if_pos ha] at heq0
            rw [if_neg hb] at heq1
            subst heq0
            subst heq1
            exact absurd (by simpa using hee.symm) hb
          · rw [if_neg ha] at heq0
            rw [if_pos hb] at heq1
            subst heq0
            subst heq1
            exact absurd (by simpa using hee) ha
          · rw [if_neg ha] at heq0
            rw [if_neg hb] at heq1
            subst heq0
            subst heq1
            exact hU e0 he0 e1 he1 hee
      · rw [if_neg hlt]
        refine ⟨?_, ?_, hU⟩
        · intro e he
          obtain ⟨he1, he2, he3⟩ := hW e he
          refine ⟨he1, List.mem_append_left _ he2, ?_⟩
          intro q hq hkq
          rcases List.mem_append.mp hq with hq | hq
          · exact he3 q hq hkq
          · have hqp : p = q := Eq.symm (by simpa using hq)
            subst hqp
            rw [hk] at hkq
            injection hkq with hkk
            have hee : e = (k0, q0) := hU e he (k0, q0) hq0m (by simp [← hkk])
            subst hee
            simpa using hlt
        · intro q hq k hkq
          rcases List.mem_append.mp hq with hq | hq
          · exact hC q hq k hkq
          · have hqp : p = q := Eq.symm (by simpa using hq)
            subst hqp
            rw [hk] at hkq
            injection hkq with hkk
            exact ⟨(k0, q0), hq0m, hkk⟩

theorem bucketFold_inv (i : Nat) : ∀ (pts pref : List DataPoint)
    (m : List ((Int × Int) × DataPoint)), BucketInv i pref m →
    BucketInv i (pref ++ pts) (pts.foldl (bucketInsert i) m)
  | [], pref, m, h => by simpa using h
  | p :: pts, pref, m, h => by
    have h2 := bucketFold_inv i pts (pref ++ [p]) (bucketInsert i m p)
      (bucketInsert_inv i pref m p h)
    simpa [List.append_assoc] using h2

theorem bucketed_props (i : Nat) (pts R : List DataPoint)
    (hR : R = sortByDate ((pts.foldl (bucketInsert i) []).map (fun e => e.2))) :
    (∀ q ∈ R, q ∈ pts) ∧
    (∀ q ∈ R, ∀ q2 ∈ R, keyOf i q = keyOf i q2 → q = q2) ∧
    (∀ p ∈ pts, ∀ k, keyOf i p = some k →
      ∃ q ∈ R, keyOf i q = some k ∧ goStrLt q.date p.date = false) := by
  obtain ⟨hW, hC, hU⟩ := by simpa using bucketFold_inv i pts [] [] (bucketInv_nil i)
  have hmemR : ∀ q, q ∈ R ↔ ∃ e ∈ pts.foldl (bucketInsert i) [], e.2 = q := by
    intro q
    rw [hR, mem_sortByDate, List.mem_map]
  refine ⟨?_, ?_, ?_⟩
  · intro q hq
    obtain ⟨e, he, rfl⟩ := (hmemR q).mp hq
    exact (hW e he).2.1
  · intro q hq q2 hq2 hkey
    obtain ⟨e, he, rfl⟩ := (hmemR q).mp hq
    obtain ⟨e2, he2, rfl⟩ := (hmemR q2).mp hq2
    obtain ⟨hk1, _, _⟩ := hW e he
    obtain ⟨hk2, _, _⟩ := hW e2 he2
    have : e.1 = e2.1 := by
      rw [hk1, hk2] at hkey
      injection hkey
    have hee := hU e he e2 he2 this
    rw [hee]
  · intro p hp k hkp
    obtain ⟨e, he, hke⟩ := hC p hp k hkp
    obtain ⟨hk1, _, hdom⟩ := hW e he
    refine ⟨e.2, (hmemR e.2).mpr ⟨e, he, rfl⟩, by rw [hk1, hke], ?_⟩
    exact hdom p hp (by rw [hkp, hke])

theorem sampleDataPoints_eq_30Y (pts : List DataPoint) :
    sampleDataPoints pts "30Y" =
      sortByDate ((pts.foldl (bucketInsert 30) []).map (fun e => e.2)) := by
  unfold sampleDataPoints
  rw [if_neg (by decide)]
  by_cases he : pts.isEmpty
  · rw [if_pos he, List.isEmpty_iff.mp he]
    rfl
  · rw [if_neg he]
    rfl

theorem sampleDataPoints_eq_10Y (pts : List DataPoint) :
    sampleDataPoints pts "10Y" =
      sortByDate ((pts.foldl (bucketInsert 7) []).map (fun e => e.2)) := by
  unfold sampleDataPoints
  rw [if_neg (by decide)]
  by_cases he : pts.isEmpty
  · rw [if_pos he, List.isEmpty_iff.mp he]
    rfl
  · rw [if_neg he]
    rfl

theorem sampleDataPoints_eq_5Y (pts : List DataPoint) :
    sampleDataPoints pts "5Y" =
      sortByDate ((pts.foldl (bucketInsert 7) []).map (fun e => e.2)) := by
  unfold sampleDataPoints
  rw [if_neg (by decide)]
  by_cases he : pts.isEmpty
  · rw [if_pos he, List.isEmpty_iff.mp he]
    rfl
  · rw [if_neg he]
    rfl

/-! ### Claim theorem: historical-yield downsampling -/

/-- C8: `sampleDataPoints` returns the 1W/1M/3M/6M/1Y point lists
unchanged; for 30Y it keeps exactly one point per calendar month and for
10Y/5Y exactly one point per ISO week — always a point of the input whose
date is not exceeded by any other point of the same bucket (latest date
wins); the monthly bucket of a parsed date is its (year, month) and the
weekly bucket its Go `ISOWeek()` pair. -/
theorem sampleDataPoints_downsampling (pts : List DataPoint) :
    (sampleDataPoints pts "1W" = pts ∧ sampleDataPoints pts "1M" = pts ∧
      sampleDataPoints pts "3M" = pts ∧ sampleDataPoints pts "6M" = pts ∧
      sampleDataPoints pts "1Y" = pts) ∧
    (∀ p : DataPoint, ∀ d, parseDate p.date = some d →
      keyOf 30 p = some (d.year, d.month) ∧ keyOf 7 p = some (isoWeek d)) ∧
    ((∀ q ∈ sampleDataPoints pts "30Y", q ∈ pts) ∧
      (∀ q ∈ sampleDataPoints pts "30Y", ∀ q2 ∈ sampleDataPoints pts "30Y",
        keyOf 30 q = keyOf 30 q2 → q = q2) ∧
      (∀ p ∈ pts, ∀ k, keyOf 30 p = some k →
        ∃ q ∈ sampleDataPoints pts "30Y", keyOf 30 q = some k ∧
          goStrLt q.date p.date = false)) ∧
    ((∀ q ∈ sampleDataPoints pts "10Y", q ∈ pts) ∧
      (∀ q ∈ sampleDataPoints pts "10Y", ∀ q2 ∈ sampleDataPoints pts "10Y",
        keyOf 7 q = keyOf 7 q2 → q = q2) ∧
      (∀ p ∈ pts, ∀ k, keyOf 7 p = some k →
        ∃ q ∈ sampleDataPoints pts "10Y", keyOf 7 q = some k ∧
          goStrLt q.date p.date = false)) ∧
    ((∀ q ∈ sampleDataPoints pts "5Y", q ∈ pts) ∧
      (∀ q ∈ sampleDataPoints pts "5Y", ∀ q2 ∈ sampleDataPoints pts "5Y",
        keyOf 7 q = keyOf 7 q2 → q = q2) ∧
      (∀ p ∈ pts, ∀ k, keyOf 7 p = some k →
        ∃ q ∈ sampleDataPoints pts "5Y", keyOf 7 q = some k ∧
          goStrLt q.date p.date = false)) := by
  refine ⟨⟨rfl, rfl, rfl, rfl, rfl⟩, ?_, ?_, ?_, ?_⟩
  · intro p d hpd
    constructor
    · unfold keyOf
      rw [hpd]
      rfl
    · unfold keyOf
      rw [hpd]
      rfl
  · exact bucketed_props 30 pts (sampleDataPoints pts "30Y") (sampleDataPoints_eq_30Y pts)
  · exact bucketed_props 7 pts (sampleDataPoints pts "10Y") (sampleDataPoints_eq_10Y pts)
  · exact bucketed_props 7 pts (sampleDataPoints pts "5Y") (sampleDataPoints_eq_5Y pts)

/-- Witness for C8 on concrete point lists: a short period is returned
unchanged; 30Y keeps the latest point of each calendar month; 10Y keeps
the latest point of each ISO week. -/
theorem sampleDataPoints_downsampling_witness :
    sampleDataPoints [⟨"2024-01-05", 1, 1, 1⟩, ⟨"2024-01-20", 2, 2, 2⟩] "1M" =
      [⟨"2024-01-05", 1, 1, 1⟩, ⟨"2024-01-20", 2, 2, 2⟩] ∧
    sampleDataPoints [⟨"2024-01-05", 1, 1, 1⟩, ⟨"2024-01-20", 2, 2, 2⟩, ⟨"2024-02-03", 3, 3, 3⟩]
      "30Y" = [⟨"2024-01-20", 2, 2, 2⟩, ⟨"2024-02-03", 3, 3, 3⟩] ∧
    sampleDataPoints [⟨"2026-01-01", 1, 1, 1⟩, ⟨"2026-01-02", 2, 2, 2⟩, ⟨"2026-01-05", 3, 3, 3⟩]
      "10Y" = [⟨"2026-01-02", 2, 2, 2⟩, ⟨"2026-01-05", 3, 3, 3⟩] :=
  ⟨(sampleDataPoints_downsampling [⟨"2024-01-05", 1, 1, 1⟩, ⟨"2024-01-20", 2, 2, 2⟩]).1.2.1,
    by decide, by decide⟩

end Treasury
